import Mathlib

/-!
# Verification development for the stage-one DOT subgraph pipeline

Shallow embedding of the pipeline's core components, translated from
`src/stage_one/simple_subgraph_extractor.py`, `src/stage_one/udf_filter.py`,
`src/stage_one/verify_udf_filtering.py` and `src/stage_one/schema_report.py`.

Modelling conventions:
* A physical line of a DOT file is a `List Char` (the lines of
  `dot_content.split('\n')`, so a line never contains `'\n'`).
* Python `dict` lookups are modelled by association lists with a first-match
  `find?`; Python `set`s by lists whose membership is what downstream code
  consumes.
* The Python regular expressions used by the pipeline are modelled by explicit
  character-level parsers with the same match semantics (greedy `[^"]+` runs,
  greedy `\s*` runs, and the backtracking choice of the rightmost viable
  `label="` for the edge pattern).
* The two loops whose Python termination is by graph finiteness (the BFS in
  `udf_filter.py` and the multi-line node scanner) are given an explicit fuel
  argument; the entry points pass a fuel that the lemmas below prove
  sufficient, so the Lean functions compute exactly what the Python loops do.
-/

/-- The whitespace characters of Python's `str.isspace`/`str.strip` as they can
occur in DOT text (ASCII whitespace). -/
def pySpace (c : Char) : Bool :=
  c == ' ' || c == '\t' || c == '\n' || c == '\r' || c == '\x0b' || c == '\x0c'

/-- Python `line.rstrip()`. -/
def rstripL (l : List Char) : List Char :=
  (l.reverse.dropWhile pySpace).reverse

/-- Python `line.strip()`. -/
def stripL (l : List Char) : List Char :=
  (rstripL l).dropWhile pySpace

/-- Python `line.endswith(suf)`. -/
def endsWithL (l suf : List Char) : Bool :=
  suf.isSuffixOf l

/-- Python substring test `sub in s` over character lists. -/
def containsSub (l sub : List Char) : Bool :=
  match l with
  | [] => sub.isEmpty
  | _ :: t => sub.isPrefixOf l || containsSub t sub

/-- Python `sub in s` on strings. -/
def containsSubS (s sub : String) : Bool :=
  containsSub s.data sub.data

/-- Python `s.startswith(p)`. -/
def startsWithS (s p : String) : Bool :=
  p.data.isPrefixOf s.data

/-- Python `s.lower()` (ASCII case folding, which is all the pipeline compares). -/
def lowerS (s : String) : String :=
  String.mk (s.data.map Char.toLower)

/-- Python `attrs.get(key, default)` over the extracted attribute mapping. -/
def attrGetD (attrs : List (String × String)) (k d : String) : String :=
  match attrs.find? (fun p => p.1 == k) with
  | some p => p.2
  | none => d

/-- `udf_filter.is_user_defined_method` (udf_filter.py lines 83-121): the UDF
classifier, a pure predicate over a node's extracted attribute map. -/
def is_user_defined_method (node_attrs : List (String × String)) : Bool :=
  let label := attrGetD node_attrs "label" ""
  if label != "METHOD" then false
  else
    let is_external := attrGetD node_attrs "IS_EXTERNAL" "false"
    if lowerS is_external == "true" then false
    else
      let name := attrGetD node_attrs "NAME" ""
      let full_name := attrGetD node_attrs "FULL_NAME" ""
      let filename := attrGetD node_attrs "FILENAME" ""
      let ast_parent := attrGetD node_attrs "AST_PARENT_FULL_NAME" ""
      if startsWithS name "<operator>" || startsWithS full_name "<operator>" then false
      else if name == "<clinit>" || name == "<global>" then false
      else if filename == "<includes>" || filename == "<empty>" || filename == "" then false
      else if containsSubS ast_parent "<includes>" then false
      else true

/-- `UDFFilterVerifier.is_user_defined_method` (verify_udf_filtering.py lines
117-146): the verifier's textually duplicated copy of the classifier. -/
def verifier_is_user_defined_method (node_attrs : List (String × String)) : Bool :=
  let label := attrGetD node_attrs "label" ""
  if label != "METHOD" then false
  else
    let is_external := attrGetD node_attrs "IS_EXTERNAL" "false"
    if lowerS is_external == "true" then false
    else
      let name := attrGetD node_attrs "NAME" ""
      let full_name := attrGetD node_attrs "FULL_NAME" ""
      let filename := attrGetD node_attrs "FILENAME" ""
      let ast_parent := attrGetD node_attrs "AST_PARENT_FULL_NAME" ""
      if startsWithS name "<operator>" || startsWithS full_name "<operator>" then false
      else if name == "<clinit>" || name == "<global>" then false
      else if filename == "<includes>" || filename == "<empty>" || filename == "" then false
      else if containsSubS ast_parent "<includes>" then false
      else true

/-- The producer's seed-collection loop (`filter_udf_subgraph`, udf_filter.py
lines 217-221): the ids whose node is labelled METHOD and classified UDF. -/
def producer_udf_set (nodes_info : List (String × List (String × String))) : List String :=
  (nodes_info.filter
    (fun p => attrGetD p.2 "label" "" == "METHOD" && is_user_defined_method p.2)).map Prod.fst

/-- The verifier's seed-recollection loop (`verify_udf_identification`,
verify_udf_filtering.py lines 179-184), over the same node table shape. -/
def verifier_udf_set (nodes : List (String × List (String × String))) : List String :=
  (nodes.filter
    (fun p => attrGetD p.2 "label" "" == "METHOD" && verifier_is_user_defined_method p.2)).map Prod.fst

/-- One recognized edge line: the regex groups plus the stored line text. -/
structure EdgeInfo where
  source : String
  target : String
  etype : String
  line : List Char
  deriving DecidableEq

/-- The tail of the edge regex after the opening bracket:
`.*label="([^"]+)".*\];` with Python's greedy backtracking, i.e. the rightmost
`label="` whose continuation (a nonempty quote-free group, its closing quote,
and a later `];`) matches. Returns the captured group. -/
def lastLabel : List Char → Option String
  | [] => none
  | c :: cs =>
    match lastLabel cs with
    | some g => some g
    | none =>
      if ['l', 'a', 'b', 'e', 'l', '=', '"'].isPrefixOf (c :: cs) then
        let after := cs.drop 6
        let g := after.takeWhile (fun x => x != '"')
        match g, after.drop g.length with
        | _ :: _, '"' :: tail =>
          if containsSub tail [']', ';'] then some (String.mk g) else none
        | _, _ => none
      else none

/-- The edge-recognition regex
`"([^"]+)"\s*->\s*"([^"]+)"\s*\[.*label="([^"]+)".*\];` applied with
`re.match` to an already stripped line, as in all four edge passes
(simple_subgraph_extractor.py line 22, udf_filter.py line 134,
verify_subgraph_extraction.py line 40, verify_udf_filtering.py line 41).
Returns (source, target, edge_type). -/
def edge_match (cs : List Char) : Option (String × String × String) :=
  match cs with
  | '"' :: r1 =>
    let id1 := r1.takeWhile (fun x => x != '"')
    (match id1, r1.drop id1.length with
     | _ :: _, '"' :: r3 =>
       (match r3.dropWhile pySpace with
        | '-' :: '>' :: r5 =>
          (match r5.dropWhile pySpace with
           | '"' :: r7 =>
             let id2 := r7.takeWhile (fun x => x != '"')
             (match id2, r7.drop id2.length with
              | _ :: _, '"' :: r9 =>
                (match r9.dropWhile pySpace with
                 | '[' :: r11 =>
                   (match lastLabel r11 with
                    | some lab => some (String.mk id1, String.mk id2, lab)
                    | none => none)
                 | _ => none)
              | _, _ => none)
           | _ => none)
        | _ => none)
     | _, _ => none)
  | _ => none

/-- The edge records a DOT text denotes: every line recognized by the edge
regex, in source order, with its stripped line text (this is what every pass
recomputes; the graph `G` of the specification). -/
def graph_edges (lines : List (List Char)) : List EdgeInfo :=
  lines.filterMap (fun l =>
    (edge_match (stripL l)).map (fun r => ⟨r.1, r.2.1, r.2.2, stripL l⟩))

/-- `simple_subgraph_extractor.extract_edges_simple` (lines 12-33): collect the
stripped lines of edges whose type is wanted, and their endpoint ids. -/
def extractor_edges (lines : List (List Char)) (edge_types : List String) :
    List (List Char) × List String :=
  match lines with
  | [] => ([], [])
  | l :: rest =>
    let r := extractor_edges rest edge_types
    match edge_match (stripL l) with
    | some (s, t, ty) =>
      if edge_types.contains ty then ((stripL l) :: r.1, s :: t :: r.2) else r
    | none => r

/-- Result of `udf_filter.extract_edges_simple` (lines 123-155): all recognized
edges with original line text, the CFG adjacency pairs, and the CFG and CALL
sublists. -/
structure UdfEdges where
  edge_lines : List EdgeInfo
  cfg_adjacency : List (String × String)
  cfg_edges : List EdgeInfo
  call_edges : List EdgeInfo
  deriving DecidableEq

/-- `udf_filter.extract_edges_simple` (lines 123-155). The adjacency dict
`cfg_adjacency[source].append(target)` is modelled by the chronological pair
list; `adjOf` below recovers `cfg_adjacency.get(source, [])`. -/
def udf_extract_edges (lines : List (List Char)) : UdfEdges :=
  match lines with
  | [] => ⟨[], [], [], []⟩
  | l :: rest =>
    let r := udf_extract_edges rest
    match edge_match (stripL l) with
    | some (s, t, ty) =>
      { edge_lines := ⟨s, t, ty, l⟩ :: r.edge_lines
        cfg_adjacency := if ty == "CFG" then (s, t) :: r.cfg_adjacency else r.cfg_adjacency
        cfg_edges := if ty == "CFG" then ⟨s, t, ty, l⟩ :: r.cfg_edges else r.cfg_edges
        call_edges := if ty == "CALL" then ⟨s, t, ty, l⟩ :: r.call_edges else r.call_edges }
    | none => r

/-- `SubgraphVerifier.parse_edges` (verify_subgraph_extraction.py lines 32-53). -/
def subgraph_verifier_parse_edges (lines : List (List Char)) : List EdgeInfo :=
  lines.filterMap (fun l =>
    (edge_match (stripL l)).map (fun r => ⟨r.1, r.2.1, r.2.2, stripL l⟩))

/-- `UDFFilterVerifier.parse_edges` (verify_udf_filtering.py lines 33-54). -/
def udf_verifier_parse_edges (lines : List (List Char)) : List EdgeInfo :=
  lines.filterMap (fun l =>
    (edge_match (stripL l)).map (fun r => ⟨r.1, r.2.1, r.2.2, stripL l⟩))

/-- `cfg_adjacency.get(x, [])`: the targets recorded for source `x`, in
insertion order. -/
def adjOf (adj : List (String × String)) (x : String) : List String :=
  (adj.filter (fun p => p.1 == x)).map Prod.snd

/-- The inner neighbor loop of `bfs_cfg_reachable` (udf_filter.py lines
242-246): the neighbors not yet visited, each added to the visited set as it
is found (so duplicates within one adjacency list are added once). -/
def newNodes (visited : List String) : List String → List String
  | [] => []
  | n :: ns =>
    if visited.contains n then newNodes visited ns
    else n :: newNodes (visited ++ [n]) ns

/-- The `while queue:` loop of `bfs_cfg_reachable` (udf_filter.py lines
235-248), with explicit fuel (the Python loop terminates because the visited
set is bounded by the finite graph; `bfsLoop_runs_out` area lemmas below prove
the fuel passed by `bfs_cfg_reachable` is enough, so the truncation case is
never taken). -/
def bfsLoop (adj : List (String × String)) : Nat → List String → List String → List String
  | 0, _, visited => visited
  | _ + 1, [], visited => visited
  | fuel + 1, current :: rest, visited =>
    let added := newNodes visited (adjOf adj current)
    bfsLoop adj fuel (rest ++ added) (visited ++ added)

/-- `bfs_cfg_reachable(start_node)` (udf_filter.py lines 235-248):
`visited = {start_node}; queue = deque([start_node])`, then the loop. Each
loop iteration dequeues one node, and a node is enqueued at most once (only
when first added to visited), so `adj.length + 1` iterations always suffice. -/
def bfs_cfg_reachable (adj : List (String × String)) (start_node : String) : List String :=
  bfsLoop adj (adj.length + 1) [start_node] [start_node]

/-- The `for udf_id in udf_methods: kept_nodes.update(...)` loop of
`filter_udf_subgraph` (udf_filter.py lines 250-255); the set union is modelled
by list concatenation (membership is all downstream code reads). -/
def collect_kept_nodes (adj : List (String × String)) (udf_methods : List String) : List String :=
  udf_methods.foldl (fun acc u => acc ++ bfs_cfg_reachable adj u) []

/-- The edge-retention loops of `filter_udf_subgraph` (udf_filter.py lines
263-275): kept CFG edges (both endpoints kept) followed by kept CALL edges
(source kept, target a UDF method). -/
def filter_kept_edges (cfg_edges call_edges : List EdgeInfo)
    (kept_nodes udf_methods : List String) : List EdgeInfo :=
  cfg_edges.filter (fun e => kept_nodes.contains e.source && kept_nodes.contains e.target)
    ++ call_edges.filter (fun e => kept_nodes.contains e.source && udf_methods.contains e.target)

/-- `re.match(r'"([^"]+)"\s*\[', line)` on an already stripped line: the node
declaration start pattern shared by the node scanners. Returns the node id. -/
def node_start (cs : List Char) : Option String :=
  match cs with
  | '"' :: r1 =>
    let nid := r1.takeWhile (fun x => x != '"')
    (match nid, r1.drop nid.length with
     | _ :: _, '"' :: r2 =>
       (match r2.dropWhile pySpace with
        | '[' :: _ => some (String.mk nid)
        | _ => none)
     | _, _ => none)
  | _ => none

/-- The inner continuation loop of `extract_nodes_simple`
(simple_subgraph_extractor.py lines 59-67, identically udf_filter.py lines
178-186): consume lines into the block until one whose right-stripped text
ends with `"];`, returning (block lines, remaining lines). -/
def takeBlock : List (List Char) → List (List Char) × List (List Char)
  | [] => ([], [])
  | l :: rest =>
    if endsWithL (rstripL l) ['"', ']', ';'] then ([l], rest)
    else
      let r := takeBlock rest
      (l :: r.1, r.2)

/-- The outer scan of `simple_subgraph_extractor.extract_nodes_simple` (lines
35-80) with explicit fuel: each iteration consumes at least the current line,
so `lines.length` iterations suffice (`extract_nodes_simple` passes that).
Returns the collected node blocks (as line lists, first line kept with its
original indentation) in scan order, and the found node ids. -/
def extract_nodes_go (node_ids : List String) :
    Nat → List (List Char) → List (List (List Char)) × List String
  | 0, _ => ([], [])
  | _ + 1, [] => ([], [])
  | fuel + 1, l :: rest =>
    match node_start (stripL l) with
    | some nid =>
      if node_ids.contains nid then
        if endsWithL (stripL l) ['"', ']', ';'] then
          let r := extract_nodes_go node_ids fuel rest
          ([l] :: r.1, nid :: r.2)
        else
          let b := takeBlock rest
          let r := extract_nodes_go node_ids fuel b.2
          ((l :: b.1) :: r.1, nid :: r.2)
      else extract_nodes_go node_ids fuel rest
    | none => extract_nodes_go node_ids fuel rest

/-- `simple_subgraph_extractor.extract_nodes_simple` (lines 35-80). -/
def extract_nodes_simple (node_ids : List String) (lines : List (List Char)) :
    List (List (List Char)) × List String :=
  extract_nodes_go node_ids lines.length lines

/-- The node-writing step shared by `create_simple_subgraph` (lines 113-124)
and `write_dot_file` (lines 306-316): a two-space indent before the first
physical line, continuation lines written unmodified, each line followed by a
newline. -/
def render_node_def (blk : List (List Char)) : List Char :=
  match blk with
  | [] => [' ', ' ', '\n']
  | first :: conts =>
    [' ', ' '] ++ first ++ ['\n'] ++ (conts.map (fun l => l ++ ['\n'])).flatten

/-- The node section `create_simple_subgraph` emits (lines 112-124): the
blocks in the order `extract_nodes_simple` returned them. -/
def nodes_section (blocks : List (List (List Char))) : List Char :=
  (blocks.map render_node_def).flatten

/-- The node id a collected block declares (its first line's node pattern). -/
def block_id (blk : List (List Char)) : String :=
  match blk with
  | [] => ""
  | l :: _ =>
    match node_start (stripL l) with
    | some nid => nid
    | none => ""

/-- Lexicographic order on strings by character code, Python's `sorted` order
for `str` keys. -/
def leS (a b : String) : Prop :=
  a.data ≤ b.data

instance : DecidableRel leS :=
  fun a b => inferInstanceAs (Decidable (a.data ≤ b.data))

instance : IsTotal String leS :=
  ⟨fun a b => IsTotal.total (r := (fun x y : List Char => x ≤ y)) a.data b.data⟩

instance : IsTrans String leS :=
  ⟨fun _ _ _ h1 h2 => le_trans h1 h2⟩

/-- The specification's description of §4.3 node emission, written from the
spec's words for comparison with `nodes_section`: the same rendering but with
the blocks sorted by their declared node id. -/
def nodes_section_sorted_spec (blocks : List (List (List Char))) : List Char :=
  ((blocks.insertionSort (fun x y => leS (block_id x) (block_id y))).map render_node_def).flatten

instance : DecidableRel (fun x y : List (List Char) => leS (block_id x) (block_id y)) :=
  fun x y => inferInstanceAs (Decidable (leS (block_id x) (block_id y)))

/-- Python `text.split('\n')`. -/
def splitNl (cs : List Char) : List (List Char) :=
  match cs with
  | [] => [[]]
  | c :: rest =>
    let r := splitNl rest
    if c = '\n' then [] :: r
    else
      match r with
      | [] => [[c]]
      | h :: t => (c :: h) :: t

/-- `node_definitions[node_id]` for the writer's assoc-list model of the dict. -/
def lookupD (defs : List (String × List Char)) (k : String) : List Char :=
  match defs.find? (fun p => p.1 == k) with
  | some p => p.2
  | none => []

/-- `udf_filter.write_dot_file` (lines 292-323): header comment block with
counts, node definitions for `sorted(node_definitions.keys())`, then the kept
edges, each written as two spaces plus the stored line. -/
def write_dot_file (original_name : List Char)
    (node_definitions : List (String × List Char)) (edges : List EdgeInfo) : List Char :=
  let sorted_ids := List.insertionSort leS (node_definitions.map Prod.fst)
  "digraph udf_".data ++ original_name ++ " \x7b\n".data
    ++ "  // UDF-filtered subgraph\n".data
    ++ "  // Only user-defined functions and their bodies\n".data
    ++ "  // Nodes: ".data ++ (toString node_definitions.length).data
    ++ ", Edges: ".data ++ (toString edges.length).data ++ "\n\n".data
    ++ "  // Node definitions\n".data
    ++ (sorted_ids.map (fun nid => render_node_def (splitNl (lookupD node_definitions nid)))).flatten
    ++ "\n  // Edge definitions\n".data
    ++ (edges.map (fun e => [' ', ' '] ++ e.line ++ ['\n'])).flatten
    ++ "\x7d\n".data

/-- A parsed node of the UDF verifier (`UDFFilterVerifier.parse_nodes`):
extracted attributes plus the raw definition text. -/
structure NodeData where
  attributes : List (String × String)
  raw_definition : List Char
  deriving DecidableEq

/-- `node_id in self.original_nodes` / `self.original_nodes[node_id]`. -/
def nodeLookup (nodes : List (String × NodeData)) (k : String) : Option NodeData :=
  match nodes.find? (fun p => p.1 == k) with
  | some p => some p.2
  | none => none

/-- The METHOD-labelled ids of a node table (the `label == 'METHOD'` loops of
the verifier). -/
def method_ids (nodes : List (String × NodeData)) : List String :=
  (nodes.filter (fun p => attrGetD p.2.attributes "label" "" == "METHOD")).map Prod.fst

/-- The UDF-classified ids of a node table (the verifier's recomputed seed
set). -/
def udf_ids (nodes : List (String × NodeData)) : List String :=
  (nodes.filter (fun p =>
    attrGetD p.2.attributes "label" "" == "METHOD"
      && verifier_is_user_defined_method p.2.attributes)).map Prod.fst

/-- A comma-separated listing standing for Python's formatting of a set of ids
inside an f-string. -/
def fmtIds (l : List String) : String :=
  String.mk (List.intercalate [',', ' '] (l.map String.data))

/-- `UDFFilterVerifier.verify_udf_identification` (lines 169-227), reduced to
its report content: `(passed, issues)`. -/
def verify_udf_identification (original_nodes filtered_nodes : List (String × NodeData)) :
    Bool × List String :=
  let original_udfs := udf_ids original_nodes
  let filtered_methods := method_ids filtered_nodes
  let filtered_udfs := udf_ids filtered_nodes
  let missing := original_udfs.filter (fun u => !(filtered_udfs.contains u))
  let external := filtered_methods.filter (fun m => !(original_udfs.contains m))
  (missing.isEmpty && external.isEmpty,
    (if missing.isEmpty then [] else ["Missing UDF methods: " ++ fmtIds missing])
      ++ (if external.isEmpty then []
          else ["External methods present: " ++ toString external.length]))

/-- `UDFFilterVerifier.verify_cfg_reachability` (lines 229-300): recompute the
closure from the original graph's CFG edges and UDF seeds, diff against the
filtered node ids. -/
def verify_cfg_reachability (original_edges : List EdgeInfo)
    (original_nodes filtered_nodes : List (String × NodeData)) : Bool × List String :=
  let cfg_adj := (original_edges.filter (fun e => e.etype == "CFG")).map
    (fun e => (e.source, e.target))
  let original_udfs := udf_ids original_nodes
  let expected := collect_kept_nodes cfg_adj original_udfs
  let actual := filtered_nodes.map Prod.fst
  let missing := expected.filter (fun x => !(actual.contains x))
  let extra := actual.filter (fun x => !(expected.contains x))
  (missing.isEmpty && extra.isEmpty,
    (if missing.isEmpty then []
     else ["Missing CFG-reachable nodes: " ++ toString missing.length])
      ++ (if extra.isEmpty then []
          else ["Extra non-CFG-reachable nodes: " ++ toString extra.length]))

/-- `UDFFilterVerifier.verify_edge_filtering` (lines 302-358). -/
def verify_edge_filtering (original_nodes filtered_nodes : List (String × NodeData))
    (filtered_edges : List EdgeInfo) : Bool × List String :=
  let filtered_node_ids := filtered_nodes.map Prod.fst
  let original_udfs := udf_ids original_nodes
  let filtered_cfg := filtered_edges.filter (fun e => e.etype == "CFG")
  let filtered_call := filtered_edges.filter (fun e => e.etype == "CALL")
  let invalid_cfg := filtered_cfg.filter
    (fun e => !(filtered_node_ids.contains e.source && filtered_node_ids.contains e.target))
  let invalid_call := filtered_call.filter
    (fun e => !(filtered_node_ids.contains e.source && original_udfs.contains e.target))
  (invalid_cfg.isEmpty && invalid_call.isEmpty,
    (if invalid_cfg.isEmpty then []
     else ["CFG edges with missing endpoints: " ++ toString invalid_cfg.length])
      ++ (if invalid_call.isEmpty then []
          else ["CALL edges violating UDF rules: " ++ toString invalid_call.length]))

/-- The per-node loop of `UDFFilterVerifier.verify_node_integrity` (lines
369-399): `(passed, not-found issues in scan order, corrupted ids in scan
order)`. -/
def node_integrity_loop (original_nodes : List (String × NodeData)) :
    List (String × NodeData) → Bool × List String × List String
  | [] => (true, [], [])
  | (nid, d) :: rest =>
    let r := node_integrity_loop original_nodes rest
    match nodeLookup original_nodes nid with
    | none => (false, ("Node " ++ nid ++ " not found in original") :: r.2.1, r.2.2)
    | some od =>
      if stripL od.raw_definition != stripL d.raw_definition then (false, r.2.1, nid :: r.2.2)
      else (r.1, r.2.1, r.2.2)

/-- `UDFFilterVerifier.verify_node_integrity` (lines 360-408): the per-node
loop, then one summary issue carrying the corrupted count when any node's raw
definition differs after `strip()`. -/
def verify_node_integrity (original_nodes filtered_nodes : List (String × NodeData)) :
    Bool × List String :=
  let r := node_integrity_loop original_nodes filtered_nodes
  (r.1, r.2.1 ++ (if r.2.2.isEmpty then []
                  else ["Corrupted node definitions: " ++ toString r.2.2.length]))

/-- The character loop of `schema_report._scan_until_node_end` (lines
141-192): processes one physical line given the carried-in quote state
(`escape` is reinitialized per line by the Python function). Returns (the
text appended to the accumulator, done, new quote state). On the terminating
`]` (outside quotes, followed by optional whitespace then `;`) the Python code
appends `]`, the whitespace and `;` to its buffer and then pops them back off
except the `]`; when the lookahead fails it leaves the appended whitespace in
the buffer and resumes at the character after `]`, re-appending that same
whitespace, which this model reproduces. -/
def scan_chars : List Char → Bool → Bool → List Char × Bool × Bool
  | [], in_string, _ => ([], false, in_string)
  | c :: cs, in_string, escape =>
    if in_string then
      if !escape && c == '\\' then
        let r := scan_chars cs true true
        (c :: r.1, r.2.1, r.2.2)
      else if escape then
        let r := scan_chars cs true false
        (c :: r.1, r.2.1, r.2.2)
      else if c == '"' then
        let r := scan_chars cs false false
        (c :: r.1, r.2.1, r.2.2)
      else
        let r := scan_chars cs true false
        (c :: r.1, r.2.1, r.2.2)
    else
      if c == '"' then
        let r := scan_chars cs true false
        (c :: r.1, r.2.1, r.2.2)
      else if c == ']' then
        let sp := cs.takeWhile pySpace
        (match cs.drop sp.length with
         | ';' :: _ => ([c], true, false)
         | _ =>
           let r := scan_chars cs false false
           ((c :: sp) ++ r.1, r.2.1, r.2.2))
      else
        let r := scan_chars cs false false
        (c :: r.1, r.2.1, r.2.2)

/-- `schema_report._scan_until_node_end(accum, line, in_string)` (lines
141-192): one line with `escape` starting false; quote state persists across
lines through the returned flag. -/
def scan_until_node_end (line : List Char) (in_string : Bool) :
    List Char × Bool × Bool :=
  scan_chars line in_string false

/-! ## General helper lemmas -/

theorem containsSub_iff_infix (sub : List Char) :
    ∀ l : List Char, containsSub l sub = true ↔ sub <:+: l := by
  intro l
  induction l with
  | nil => simp [containsSub, List.infix_nil, List.isEmpty_iff]
  | cons a t ih =>
    simp [containsSub, List.infix_cons_iff, List.isPrefixOf_iff_prefix, ih]

/-- C1: the UDF classifier is a pure predicate over a node's attribute map
returning true iff all six conditions hold: label is METHOD; IS_EXTERNAL
(case-insensitively, defaulting to "false" when missing) is not "true";
neither NAME nor FULL_NAME starts with "<operator>"; NAME is neither
"<clinit>" nor "<global>"; FILENAME is none of "<includes>", "<empty>", "";
and AST_PARENT_FULL_NAME does not contain the substring "<includes>" — with
every missing attribute other than IS_EXTERNAL treated as the empty string,
so in particular a non-METHOD node is never classified UDF. -/
theorem C1_udf_classifier (attrs : List (String × String)) :
    is_user_defined_method attrs = true ↔
      (attrGetD attrs "label" "" = "METHOD"
        ∧ (attrGetD attrs "IS_EXTERNAL" "false").data.map Char.toLower ≠ "true".data
        ∧ ¬ "<operator>".data <+: (attrGetD attrs "NAME" "").data
        ∧ ¬ "<operator>".data <+: (attrGetD attrs "FULL_NAME" "").data
        ∧ attrGetD attrs "NAME" "" ≠ "<clinit>"
        ∧ attrGetD attrs "NAME" "" ≠ "<global>"
        ∧ attrGetD attrs "FILENAME" "" ∉ (["<includes>", "<empty>", ""] : List String)
        ∧ ¬ "<includes>".data <:+: (attrGetD attrs "AST_PARENT_FULL_NAME" "").data) := by
  simp only [is_user_defined_method, startsWithS, containsSubS, lowerS]
  split_ifs with h1 h2 h3 h4 h5 h6 <;>
    simp_all [bne_iff_ne, beq_iff_eq, List.isPrefixOf_iff_prefix, containsSub_iff_infix,
      String.ext_iff, not_or] <;> tauto

/-! ## Reachability: helper lemmas -/

theorem contains_append_or (v w : List String) (x : String) :
    (v ++ w).contains x = (v.contains x || w.contains x) := by
  induction v with
  | nil => simp
  | cons a v ih => simp [List.contains_cons, ih, Bool.or_assoc]

theorem contains_false_iff (v : List String) (x : String) :
    v.contains x = false ↔ x ∉ v := by
  simp [List.elem_iff]

theorem filter_len_split (p q : String → Bool) (T : List String) :
    (T.filter p).length
      = (T.filter (fun x => p x && q x)).length + (T.filter (fun x => p x && !q x)).length := by
  induction T with
  | nil => simp
  | cons a t ih => by_cases hp : p a <;> by_cases hq : q a <;> simp [hp, hq, ih] <;> omega

theorem filter_len_pos (p : String → Bool) (T : List String) (a : String)
    (ha : a ∈ T) (hp : p a = true) : 1 ≤ (T.filter p).length := by
  have h2 : a ∈ T.filter p := List.mem_filter.mpr ⟨ha, hp⟩
  have h3 := List.length_pos.mpr (List.ne_nil_of_mem h2)
  omega

theorem unvisited_drop (T : List String) :
    ∀ (A v : List String), A.Nodup → (∀ a ∈ A, a ∉ v) → (∀ a ∈ A, a ∈ T) →
      (T.filter (fun t => !((v ++ A).contains t))).length + A.length
        ≤ (T.filter (fun t => !(v.contains t))).length := by
  intro A
  induction A with
  | nil => intro v _ _ _; simp
  | cons a A2 ih =>
    intro v hnd hnv hT
    have hna : a ∉ A2 := (List.nodup_cons.mp hnd).1
    have hstep : (T.filter (fun t => !((v ++ [a]).contains t))).length + 1
        ≤ (T.filter (fun t => !(v.contains t))).length := by
      have hsplit := filter_len_split (fun t => !(v.contains t)) (fun t => !(t == a)) T
      have he1 : T.filter (fun t => !(v.contains t) && !(!(t == a)))
          = T.filter (fun t => !(v.contains t) && (t == a)) := by
        apply List.filter_congr
        intro x _
        by_cases hx : x = a <;> simp [hx]
      have he2 : T.filter (fun t => !(v.contains t) && !(t == a))
          = T.filter (fun t => !((v ++ [a]).contains t)) := by
        apply List.filter_congr
        intro x _
        by_cases hx : x = a <;> simp [contains_append_or, List.contains_cons, hx]
      have he3 : 1 ≤ (T.filter (fun t => !(v.contains t) && (t == a))).length := by
        apply filter_len_pos _ _ a (hT a (List.mem_cons_self _ _))
        have hva : a ∉ v := hnv a (List.mem_cons_self _ _)
        simp [hva]
      rw [he1, he2] at hsplit
      omega
    have hih := ih (v ++ [a]) (List.nodup_cons.mp hnd).2
      (by
        intro x hx
        have hxa : x ≠ a := fun he => hna (he ▸ hx)
        have hxv : x ∉ v := hnv x (List.mem_cons_of_mem _ hx)
        simp [List.mem_append, hxa, hxv])
      (fun x hx => hT x (List.mem_cons_of_mem _ hx))
    rw [List.append_cons v a A2]
    simp only [List.length_cons]
    omega

/-! ## Reachability: newNodes lemmas -/

theorem newNodes_sub : ∀ (ns v : List String) (x : String),
    x ∈ newNodes v ns → x ∈ ns ∧ x ∉ v := by
  intro ns
  induction ns with
  | nil => intro v x h; simp [newNodes] at h
  | cons n ns ih =>
    intro v x h
    cases hc : v.contains n with
    | true =>
      rw [newNodes, hc] at h
      simp only [if_true] at h
      rcases ih v x h with ⟨h1, h2⟩
      exact ⟨List.mem_cons_of_mem _ h1, h2⟩
    | false =>
      rw [newNodes, hc] at h
      simp only [Bool.false_eq_true, if_false] at h
      rcases List.mem_cons.mp h with rfl | h2
      · exact ⟨List.mem_cons_self _ _, (contains_false_iff _ _).mp hc⟩
      · rcases ih (v ++ [n]) x h2 with ⟨h1, h3⟩
        exact ⟨List.mem_cons_of_mem _ h1,
          fun hx => h3 (List.mem_append.mpr (Or.inl hx))⟩

theorem newNodes_nodup : ∀ (ns v : List String), (newNodes v ns).Nodup := by
  intro ns
  induction ns with
  | nil => intro v; simp [newNodes]
  | cons n ns ih =>
    intro v
    cases hc : v.contains n with
    | true =>
      rw [newNodes, hc]
      simpa using ih v
    | false =>
      rw [newNodes, hc]
      simp only [Bool.false_eq_true, if_false]
      refine List.nodup_cons.mpr ⟨?_, ih (v ++ [n])⟩
      intro hmem
      exact (newNodes_sub ns (v ++ [n]) n hmem).2
        (List.mem_append.mpr (Or.inr (List.mem_cons_self _ _)))

theorem newNodes_mem_append : ∀ (ns v : List String) (m : String),
    m ∈ ns → m ∈ v ++ newNodes v ns := by
  intro ns
  induction ns with
  | nil => intro v m h; cases h
  | cons n ns ih =>
    intro v m h
    cases hc : v.contains n with
    | true =>
      rw [newNodes, hc]
      simp only [if_true]
      rcases List.mem_cons.mp h with rfl | h2
      · exact List.mem_append.mpr (Or.inl (List.elem_iff.mp hc))
      · exact ih v m h2
    | false =>
      rw [newNodes, hc]
      simp only [Bool.false_eq_true, if_false]
      rcases List.mem_cons.mp h with rfl | h2
      · exact List.mem_append.mpr (Or.inr (List.mem_cons_self _ _))
      · have h3 := ih (v ++ [n]) m h2
        rw [List.append_cons]
        exact h3

/-! ## Reachability: adjacency lemmas -/

theorem mem_adjOf (adj : List (String × String)) (x y : String) :
    y ∈ adjOf adj x ↔ (x, y) ∈ adj := by
  simp only [adjOf, List.mem_map, List.mem_filter]
  constructor
  · rintro ⟨⟨a, b⟩, ⟨hp, he⟩, rfl⟩
    simp only [beq_iff_eq] at he
    subst he
    exact hp
  · intro h
    exact ⟨(x, y), ⟨h, by simp⟩, rfl⟩

theorem adjOf_sub_targets (adj : List (String × String)) (x y : String)
    (h : y ∈ adjOf adj x) : y ∈ adj.map Prod.snd := by
  simp only [adjOf, List.mem_map, List.mem_filter] at h ⊢
  rcases h with ⟨p, ⟨hp, _⟩, rfl⟩
  exact ⟨p, hp, rfl⟩

/-! ## Reachability: bfsLoop lemmas -/

theorem bfsLoop_nil (adj : List (String × String)) :
    ∀ (fuel : Nat) (v : List String), bfsLoop adj fuel [] v = v := by
  intro fuel v
  cases fuel <;> rfl

theorem bfsLoop_mono (adj : List (String × String)) :
    ∀ (fuel : Nat) (q v : List String) (x : String), x ∈ v → x ∈ bfsLoop adj fuel q v := by
  intro fuel
  induction fuel with
  | zero => intro q v x h; simpa [bfsLoop] using h
  | succ fuel ih =>
    intro q v x h
    cases q with
    | nil => simpa [bfsLoop] using h
    | cons current rest =>
      rw [bfsLoop]
      exact ih _ _ x (List.mem_append.mpr (Or.inl h))

theorem bfsLoop_closed (adj : List (String × String)) :
    ∀ (fuel : Nat) (q v : List String),
      q.length + ((adj.map Prod.snd).filter (fun t => !(v.contains t))).length ≤ fuel →
      (∀ x ∈ q, x ∈ v) →
      (∀ x ∈ v, x ∈ q ∨ ∀ y ∈ adjOf adj x, y ∈ v) →
      ∀ x ∈ bfsLoop adj fuel q v, ∀ y ∈ adjOf adj x, y ∈ bfsLoop adj fuel q v := by
  intro fuel
  induction fuel with
  | zero =>
    intro q v hlen _ hinv
    have hq : q = [] := by
      cases q with
      | nil => rfl
      | cons a b => exfalso; simp only [List.length_cons] at hlen; omega
    subst hq
    intro x hx y hy
    rw [bfsLoop] at hx ⊢
    rcases hinv x hx with h | h
    · cases h
    · exact h y hy
  | succ fuel ih =>
    intro q v hlen hqv hinv
    cases q with
    | nil =>
      intro x hx y hy
      rw [bfsLoop_nil] at hx ⊢
      rcases hinv x hx with h | h
      · cases h
      · exact h y hy
    | cons current rest =>
      rw [bfsLoop]
      have hnd := newNodes_nodup (adjOf adj current) v
      have hsub : ∀ a ∈ newNodes v (adjOf adj current), a ∉ v :=
        fun a ha => (newNodes_sub _ _ a ha).2
      have hT : ∀ a ∈ newNodes v (adjOf adj current), a ∈ adj.map Prod.snd :=
        fun a ha => adjOf_sub_targets adj current a (newNodes_sub _ _ a ha).1
      have hdrop := unvisited_drop (adj.map Prod.snd) (newNodes v (adjOf adj current)) v
        hnd hsub hT
      apply ih
      · simp only [List.length_append, List.length_cons] at hlen ⊢
        omega
      · intro x hx
        rcases List.mem_append.mp hx with h | h
        · exact List.mem_append.mpr (Or.inl (hqv x (List.mem_cons_of_mem _ h)))
        · exact List.mem_append.mpr (Or.inr h)
      · intro x hx
        rcases List.mem_append.mp hx with hxv | hxa
        · rcases hinv x hxv with hq | hcl
          · rcases List.mem_cons.mp hq with rfl | hr
            · right
              intro y hy
              exact newNodes_mem_append (adjOf adj x) v y hy
            · left
              exact List.mem_append.mpr (Or.inl hr)
          · right
            intro y hy
            exact List.mem_append.mpr (Or.inl (hcl y hy))
        · left
          exact List.mem_append.mpr (Or.inr hxa)

theorem bfsLoop_minimal (adj : List (String × String)) (S : String → Prop)
    (hS : ∀ x y, S x → (x, y) ∈ adj → S y) :
    ∀ (fuel : Nat) (q v : List String), (∀ x ∈ v, S x) → (∀ x ∈ q, x ∈ v) →
      ∀ x ∈ bfsLoop adj fuel q v, S x := by
  intro fuel
  induction fuel with
  | zero =>
    intro q v hv _ x hx
    rw [bfsLoop] at hx
    exact hv x hx
  | succ fuel ih =>
    intro q v hv hqv
    cases q with
    | nil =>
      intro x hx
      rw [bfsLoop_nil] at hx
      exact hv x hx
    | cons current rest =>
      rw [bfsLoop]
      apply ih
      · intro x hx
        rcases List.mem_append.mp hx with h | h
        · exact hv x h
        · have hsub := newNodes_sub _ _ x h
          have hcur : S current := hv current (hqv current (List.mem_cons_self _ _))
          exact hS current x hcur ((mem_adjOf adj current x).mp hsub.1)
      · intro x hx
        rcases List.mem_append.mp hx with h | h
        · exact List.mem_append.mpr (Or.inl (hqv x (List.mem_cons_of_mem _ h)))
        · exact List.mem_append.mpr (Or.inr h)

/-! ## Reachability: entry-point lemmas -/

theorem bfs_mem_start (adj : List (String × String)) (s : String) :
    s ∈ bfs_cfg_reachable adj s :=
  bfsLoop_mono adj _ _ _ s (List.mem_cons_self _ _)

theorem bfs_closed (adj : List (String × String)) (s : String) :
    ∀ x ∈ bfs_cfg_reachable adj s, ∀ y ∈ adjOf adj x, y ∈ bfs_cfg_reachable adj s := by
  apply bfsLoop_closed
  · have h := List.length_filter_le (fun t => !(([s] : List String).contains t))
      (adj.map Prod.snd)
    simp only [List.length_cons, List.length_nil, List.length_map] at h ⊢
    omega
  · intro x hx
    exact hx
  · intro x hx
    left
    exact hx

theorem bfs_minimal (adj : List (String × String)) (S : String → Prop)
    (hS : ∀ x y, S x → (x, y) ∈ adj → S y) (s : String) (hs : S s) :
    ∀ x ∈ bfs_cfg_reachable adj s, S x := by
  apply bfsLoop_minimal adj S hS
  · intro x hx
    rcases List.mem_cons.mp hx with rfl | h
    · exact hs
    · cases h
  · intro x hx
    exact hx

theorem bfs_no_out (adj : List (String × String)) (s : String) (h : adjOf adj s = []) :
    bfs_cfg_reachable adj s = [s] := by
  unfold bfs_cfg_reachable
  rw [bfsLoop, h]
  simp only [newNodes, List.append_nil]
  exact bfsLoop_nil adj _ [s]

theorem mem_collect (adj : List (String × String)) (seeds : List String) (x : String) :
    x ∈ collect_kept_nodes adj seeds ↔ ∃ u ∈ seeds, x ∈ bfs_cfg_reachable adj u := by
  unfold collect_kept_nodes
  suffices h : ∀ (l : List String) (acc : List String),
      x ∈ l.foldl (fun acc u => acc ++ bfs_cfg_reachable adj u) acc
        ↔ x ∈ acc ∨ ∃ u ∈ l, x ∈ bfs_cfg_reachable adj u by
    simpa using h seeds []
  intro l
  induction l with
  | nil => intro acc; simp
  | cons u l ih =>
    intro acc
    rw [List.foldl_cons, ih]
    simp [List.mem_append]
    tauto

/-- C3: for every directed CFG edge relation and every seed set, the slicer
result contains every seed, is closed under following CFG edges forward, is
contained in every forward-closed superset of the seeds (so it is the smallest
such set), and a seed with no outgoing CFG edges yields exactly itself.
Termination on cyclic graphs holds because `bfs_cfg_reachable` is a total
function whose fuel the closure lemmas prove sufficient. -/
theorem C3_reachability_slicer (adj : List (String × String)) (seeds : List String) :
    (∀ u ∈ seeds, u ∈ collect_kept_nodes adj seeds)
      ∧ (∀ x ∈ collect_kept_nodes adj seeds, ∀ y ∈ adjOf adj x,
          y ∈ collect_kept_nodes adj seeds)
      ∧ (∀ S : String → Prop, (∀ u ∈ seeds, S u) → (∀ x y, S x → (x, y) ∈ adj → S y) →
          ∀ x ∈ collect_kept_nodes adj seeds, S x)
      ∧ (∀ s, adjOf adj s = [] → ∀ x, x ∈ bfs_cfg_reachable adj s ↔ x = s) := by
  refine ⟨?_, ?_, ?_, ?_⟩
  · intro u hu
    exact (mem_collect adj seeds u).mpr ⟨u, hu, bfs_mem_start adj u⟩
  · intro x hx y hy
    rcases (mem_collect adj seeds x).mp hx with ⟨u, hu, hxu⟩
    exact (mem_collect adj seeds y).mpr ⟨u, hu, bfs_closed adj u x hxu y hy⟩
  · intro S hseed hclosed x hx
    rcases (mem_collect adj seeds x).mp hx with ⟨u, hu, hxu⟩
    exact bfs_minimal adj S hclosed u (hseed u hu) x hxu
  · intro s hs x
    rw [bfs_no_out adj s hs]
    simp

/-! ## C9: producer/verifier classifier duplication -/

/-- C9: the verifier's textually duplicated UDF classifier is extensionally
equal to the producer's predicate, so the verifier's recomputed seed set over
a node table equals the producer's seed set over the same table. -/
theorem C9_classifier_duplication :
    (∀ attrs : List (String × String),
        is_user_defined_method attrs = verifier_is_user_defined_method attrs)
      ∧ ∀ nodes : List (String × List (String × String)),
          producer_udf_set nodes = verifier_udf_set nodes :=
  ⟨fun _ => rfl, fun _ => rfl⟩

/-! ## Edge classification lemmas for the UDF filter -/

theorem udf_extract_cfg (lines : List (List Char)) :
    (udf_extract_edges lines).cfg_edges
      = (udf_extract_edges lines).edge_lines.filter (fun e => e.etype == "CFG") := by
  induction lines with
  | nil => rfl
  | cons l rest ih =>
    cases hm : edge_match (stripL l) with
    | none => simpa [udf_extract_edges, hm] using ih
    | some r =>
      obtain ⟨s, t, ty⟩ := r
      cases hty : ty == "CFG" with
      | true => simp [udf_extract_edges, hm, hty, ih]
      | false => simp [udf_extract_edges, hm, hty, ih]

theorem udf_extract_call (lines : List (List Char)) :
    (udf_extract_edges lines).call_edges
      = (udf_extract_edges lines).edge_lines.filter (fun e => e.etype == "CALL") := by
  induction lines with
  | nil => rfl
  | cons l rest ih =>
    cases hm : edge_match (stripL l) with
    | none => simpa [udf_extract_edges, hm] using ih
    | some r =>
      obtain ⟨s, t, ty⟩ := r
      cases hty : ty == "CALL" with
      | true =>
        cases hcfg : ty == "CFG" with
        | true => simp [udf_extract_edges, hm, hty, hcfg, ih]
        | false => simp [udf_extract_edges, hm, hty, hcfg, ih]
      | false =>
        cases hcfg : ty == "CFG" with
        | true => simp [udf_extract_edges, hm, hty, hcfg, ih]
        | false => simp [udf_extract_edges, hm, hty, hcfg, ih]

/-- C2: an edge is kept by the retention filter iff it is a recognized edge of
the graph and either it is a CFG edge with both endpoints in kept_nodes, or it
is a CALL edge whose source is in kept_nodes and whose target is in the UDF
seed set (membership in kept_nodes does not suffice for a CALL target); every
edge of any other type is dropped. -/
theorem C2_edge_retention (lines : List (List Char)) (kept_nodes udf_methods : List String)
    (e : EdgeInfo) :
    e ∈ filter_kept_edges (udf_extract_edges lines).cfg_edges
        (udf_extract_edges lines).call_edges kept_nodes udf_methods
      ↔ e ∈ (udf_extract_edges lines).edge_lines
          ∧ ((e.etype = "CFG" ∧ e.source ∈ kept_nodes ∧ e.target ∈ kept_nodes)
             ∨ (e.etype = "CALL" ∧ e.source ∈ kept_nodes ∧ e.target ∈ udf_methods)) := by
  rw [filter_kept_edges, udf_extract_cfg, udf_extract_call]
  simp only [List.mem_append, List.mem_filter, Bool.and_eq_true, List.elem_iff, beq_iff_eq]
  tauto

/-! ## Extractor lemmas -/

theorem extractor_edges_spec (edge_types : List String) :
    ∀ lines : List (List Char),
      (extractor_edges lines edge_types).1
          = ((graph_edges lines).filter (fun e => edge_types.contains e.etype)).map
              (fun e => e.line)
        ∧ (extractor_edges lines edge_types).2
            = ((graph_edges lines).filter (fun e => edge_types.contains e.etype)).flatMap
                (fun e => [e.source, e.target]) := by
  intro lines
  induction lines with
  | nil => exact ⟨rfl, rfl⟩
  | cons l rest ih =>
    cases hm : edge_match (stripL l) with
    | none =>
      refine ⟨?_, ?_⟩
      · simpa [extractor_edges, graph_edges, hm, List.filterMap_cons] using ih.1
      · simpa [extractor_edges, graph_edges, hm, List.filterMap_cons] using ih.2
    | some r =>
      obtain ⟨s, t, ty⟩ := r
      cases hty : edge_types.contains ty with
      | true =>
        have hty2 : ty ∈ edge_types := List.elem_iff.mp hty
        refine ⟨?_, ?_⟩
        · simp [extractor_edges, graph_edges, hm, hty, hty2, List.filterMap_cons,
            List.filter_cons, ih.1]
        · simp [extractor_edges, graph_edges, hm, hty, hty2, List.filterMap_cons,
            List.filter_cons, ih.2]
      | false =>
        have hty2 : ty ∉ edge_types := by simpa using hty
        refine ⟨?_, ?_⟩
        · simp [extractor_edges, graph_edges, hm, hty, hty2, List.filterMap_cons,
            List.filter_cons, ih.1]
        · simp [extractor_edges, graph_edges, hm, hty, hty2, List.filterMap_cons,
            List.filter_cons, ih.2]

/-- C4: the subgraph extractor's kept edge lines are exactly (and in source
order) the lines of the recognized edges whose type is in the wanted set, no
kept edge has a type outside the wanted set, and the kept node ids are exactly
the sources and targets of the kept edges. -/
theorem C4_extractor_type_filter (lines : List (List Char)) (edge_types : List String) :
    ((extractor_edges lines edge_types).1
        = ((graph_edges lines).filter (fun e => edge_types.contains e.etype)).map
            (fun e => e.line))
      ∧ (∀ e ∈ (graph_edges lines).filter (fun e => edge_types.contains e.etype),
          e.etype ∈ edge_types)
      ∧ (∀ x, x ∈ (extractor_edges lines edge_types).2
          ↔ ∃ e ∈ (graph_edges lines).filter (fun e => edge_types.contains e.etype),
              x = e.source ∨ x = e.target) := by
  refine ⟨(extractor_edges_spec edge_types lines).1, ?_, ?_⟩
  · intro e he
    have := (List.mem_filter.mp he).2
    exact List.elem_iff.mp this
  · intro x
    rw [(extractor_edges_spec edge_types lines).2, List.mem_flatMap]
    constructor
    · rintro ⟨e, he, hx⟩
      rcases List.mem_cons.mp hx with h | h
      · exact ⟨e, he, Or.inl h⟩
      · rcases List.mem_cons.mp h with h2 | h2
        · exact ⟨e, he, Or.inr h2⟩
        · cases h2
    · rintro ⟨e, he, h | h⟩
      · exact ⟨e, he, by simp [h]⟩
      · exact ⟨e, he, by simp [h]⟩

/-! ## C10 lemmas: unrecognized lines are silently ignored everywhere -/

theorem extractor_edges_skip (edge_types : List String) (l : List Char)
    (h : edge_match (stripL l) = none) :
    ∀ L1 L2 : List (List Char),
      extractor_edges (L1 ++ l :: L2) edge_types = extractor_edges (L1 ++ L2) edge_types := by
  intro L1
  induction L1 with
  | nil =>
    intro L2
    simp [extractor_edges, h]
  | cons a L1 ih =>
    intro L2
    simp only [List.cons_append, extractor_edges, List.append_eq, ih]

theorem udf_extract_skip (l : List Char) (h : edge_match (stripL l) = none) :
    ∀ L1 L2 : List (List Char),
      udf_extract_edges (L1 ++ l :: L2) = udf_extract_edges (L1 ++ L2) := by
  intro L1
  induction L1 with
  | nil =>
    intro L2
    simp [udf_extract_edges, h]
  | cons a L1 ih =>
    intro L2
    simp only [List.cons_append, udf_extract_edges, List.append_eq, ih]

theorem udf_extract_mem (lines : List (List Char)) (e : EdgeInfo) :
    e ∈ (udf_extract_edges lines).edge_lines
      ↔ ∃ l ∈ lines, ∃ s t ty, edge_match (stripL l) = some (s, t, ty)
          ∧ e = ⟨s, t, ty, l⟩ := by
  induction lines with
  | nil => simp [udf_extract_edges]
  | cons l rest ih =>
    cases hm : edge_match (stripL l) with
    | none =>
      simp only [udf_extract_edges, hm, List.mem_cons, ih]
      constructor
      · rintro ⟨l2, hl2, rest2⟩
        exact ⟨l2, Or.inr hl2, rest2⟩
      · rintro ⟨l2, hl2 | hl2, rest2⟩
        · subst hl2
          rcases rest2 with ⟨s, t, ty, hmm, _⟩
          rw [hm] at hmm
          cases hmm
        · exact ⟨l2, hl2, rest2⟩
    | some r =>
      obtain ⟨s, t, ty⟩ := r
      simp only [udf_extract_edges, hm, List.mem_cons, ih]
      constructor
      · rintro (rfl | ⟨l2, hl2, rest2⟩)
        · exact ⟨l, Or.inl rfl, s, t, ty, hm, rfl⟩
        · exact ⟨l2, Or.inr hl2, rest2⟩
      · rintro ⟨l2, hl2 | hl2, s2, t2, ty2, hmm, he⟩
        · subst hl2
          rw [hm] at hmm
          cases hmm
          exact Or.inl he
        · exact Or.inr ⟨l2, hl2, s2, t2, ty2, hmm, he⟩

/-- C10: every edge pass recognizes an edge exactly when the stripped physical
line matches the quoted-id, arrow, quoted-id, bracketed label pattern modelled
by `edge_match`, and a line that fails the pattern is silently ignored by the
extractor, the UDF filter and both verifiers alike: removing it changes no
output, count or parse result of any of them. -/
theorem C10_unparsable_edges_ignored :
    (∀ (lines : List (List Char)) (e : EdgeInfo),
        e ∈ (udf_extract_edges lines).edge_lines
          ↔ ∃ l ∈ lines, ∃ s t ty, edge_match (stripL l) = some (s, t, ty)
              ∧ e = ⟨s, t, ty, l⟩)
      ∧ (∀ (edge_types : List String) (l : List Char) (L1 L2 : List (List Char)),
          edge_match (stripL l) = none →
            extractor_edges (L1 ++ l :: L2) edge_types = extractor_edges (L1 ++ L2) edge_types
              ∧ udf_extract_edges (L1 ++ l :: L2) = udf_extract_edges (L1 ++ L2)
              ∧ subgraph_verifier_parse_edges (L1 ++ l :: L2)
                  = subgraph_verifier_parse_edges (L1 ++ L2)
              ∧ udf_verifier_parse_edges (L1 ++ l :: L2)
                  = udf_verifier_parse_edges (L1 ++ L2)) := by
  refine ⟨udf_extract_mem, ?_⟩
  intro edge_types l L1 L2 h
  refine ⟨extractor_edges_skip edge_types l h L1 L2, udf_extract_skip l h L1 L2, ?_, ?_⟩
  · simp [subgraph_verifier_parse_edges, List.filterMap_append, List.filterMap_cons, h]
  · simp [udf_verifier_parse_edges, List.filterMap_append, List.filterMap_cons, h]

/-! ## Node scanner lemmas -/

theorem takeBlock_split : ∀ ls : List (List Char), ls = (takeBlock ls).1 ++ (takeBlock ls).2 := by
  intro ls
  induction ls with
  | nil => rfl
  | cons l rest ih =>
    cases h : endsWithL (rstripL l) ['"', ']', ';'] with
    | true => simp [takeBlock, h]
    | false =>
      simp only [takeBlock, h, Bool.false_eq_true, if_false, List.cons_append,
        List.cons.injEq, true_and]
      exact ih

theorem extract_nodes_go_infix (node_ids : List String) :
    ∀ (fuel : Nat) (lines : List (List Char)),
      ∀ blk ∈ (extract_nodes_go node_ids fuel lines).1,
        List.IsInfix blk lines ∧ blk ≠ [] := by
  intro fuel
  induction fuel with
  | zero =>
    intro lines blk h
    simp [extract_nodes_go] at h
  | succ fuel ih =>
    intro lines blk h
    cases lines with
    | nil => simp [extract_nodes_go] at h
    | cons l rest =>
      rw [extract_nodes_go] at h
      cases hn : node_start (stripL l) with
      | none =>
        rw [hn] at h
        rcases ih rest blk h with ⟨hi, hne⟩
        exact ⟨hi.trans (List.suffix_append [l] rest).isInfix, hne⟩
      | some nid =>
        cases hc : node_ids.contains nid with
        | false =>
          simp only [hn, hc, Bool.false_eq_true, if_false] at h
          rcases ih rest blk h with ⟨hi, hne⟩
          exact ⟨hi.trans (List.suffix_append [l] rest).isInfix, hne⟩
        | true =>
          cases he : endsWithL (stripL l) ['"', ']', ';'] with
          | true =>
            simp only [hn, hc, he, if_true] at h
            rcases List.mem_cons.mp h with rfl | h2
            · refine ⟨?_, by simp⟩
              exact (List.prefix_append [l] rest).isInfix
            · rcases ih rest blk h2 with ⟨hi, hne⟩
              exact ⟨hi.trans (List.suffix_append [l] rest).isInfix, hne⟩
          | false =>
            simp only [hn, hc, he, Bool.false_eq_true, if_false, if_true] at h
            rcases List.mem_cons.mp h with rfl | h2
            · refine ⟨?_, by simp⟩
              refine List.IsPrefix.isInfix ⟨(takeBlock rest).2, ?_⟩
              simp only [List.cons_append]
              rw [← takeBlock_split rest]
            · rcases ih (takeBlock rest).2 blk h2 with ⟨hi, hne⟩
              refine ⟨hi.trans ?_, hne⟩
              have h1 : List.IsSuffix (takeBlock rest).2 rest :=
                ⟨(takeBlock rest).1, (takeBlock_split rest).symm⟩
              exact (h1.trans (List.suffix_append [l] rest)).isInfix

/-- C6 amended: the extractor emits node declaration texts in input scan order
(the order `extract_nodes_simple` found them, not sorted by id), each block
reproduced byte-for-byte as a consecutive run of original input lines, with
the fixed two-space indent prefixed only before the block's first line and
every continuation line unmodified. -/
theorem C6_node_emission_order (node_ids : List String) (lines : List (List Char)) :
    nodes_section (extract_nodes_simple node_ids lines).1
        = (((extract_nodes_simple node_ids lines).1).map
            (fun blk => [' ', ' '] ++ (blk.map (fun l => l ++ ['\n'])).flatten)).flatten
      ∧ ∀ blk ∈ (extract_nodes_simple node_ids lines).1,
          List.IsInfix blk lines ∧ blk ≠ [] := by
  constructor
  · unfold nodes_section
    congr 1
    apply List.map_congr_left
    intro blk hblk
    rcases extract_nodes_go_infix node_ids lines.length lines blk hblk with ⟨_, hne⟩
    cases blk with
    | nil => exact absurd rfl hne
    | cons first conts => simp [render_node_def]
  · exact extract_nodes_go_infix node_ids lines.length lines

/-- C6 counterexample: with node b declared before node a in the input, the
extractor finds and emits b's declaration before a's; emitting sorted by node
id (as the claim states) would produce a different node section. -/
theorem C6_counterexample :
    (extract_nodes_simple ["a", "b"]
        ["\"b\" [label=\"B\"];".data, "\"a\" [label=\"A\"];".data]).2 = ["b", "a"]
      ∧ nodes_section (extract_nodes_simple ["a", "b"]
            ["\"b\" [label=\"B\"];".data, "\"a\" [label=\"A\"];".data]).1
          ≠ nodes_section_sorted_spec (extract_nodes_simple ["a", "b"]
              ["\"b\" [label=\"B\"];".data, "\"a\" [label=\"A\"];".data]).1 := by
  constructor
  · decide
  · decide

/-- C5 counterexample: the extractor's multi-line scanner does not terminate a
declaration at a `];` that closes an unquoted final value: with the block of
node n1 ending in `X=5];`, the scan runs past that line and swallows the
following declaration of node m, which is then not found at all. -/
theorem C5_counterexample :
    extract_nodes_simple ["n1", "m"]
        ["\"n1\" [".data, "  X=5];".data, "\"m\" [Y=\"1\"];".data]
      = ([["\"n1\" [".data, "  X=5];".data, "\"m\" [Y=\"1\"];".data]], ["n1"]) := by
  decide

theorem scan_two_backslashes (cs : List Char) :
    scan_chars ('\\' :: '\\' :: cs) true false
      = ('\\' :: '\\' :: (scan_chars cs true false).1,
         (scan_chars cs true false).2.1, (scan_chars cs true false).2.2) := by
  simp [scan_chars]

/-- C5 amended: the quote-tracking accumulation described by the claim is the
behaviour of the schema reporter's `_scan_until_node_end` only: there, a quote
preceded by an odd number of consecutive backslashes is escaped (the string
stays open) while an even number leaves the quote a real delimiter, a `]`
inside a quoted string is inert, the terminating `]` may be followed by
whitespace before `;` and may close an unquoted final value, and the quote
state is carried across physical lines through the returned flag. The
extractor's and UDF filter's scanners instead end a multi-line block exactly
at the first line whose right-stripped text ends with the three characters
quote-bracket-semicolon, with no quote tracking. -/
theorem C5_scanner_behaviour :
    (∀ (k : Nat) (cs : List Char),
        scan_chars (List.replicate (2 * k + 1) '\\' ++ '"' :: cs) true false
          = (List.replicate (2 * k + 1) '\\' ++ '"' :: (scan_chars cs true false).1,
             (scan_chars cs true false).2.1, (scan_chars cs true false).2.2))
      ∧ (∀ (k : Nat) (cs : List Char),
          scan_chars (List.replicate (2 * k) '\\' ++ '"' :: cs) true false
            = (List.replicate (2 * k) '\\' ++ '"' :: (scan_chars cs false false).1,
               (scan_chars cs false false).2.1, (scan_chars cs false false).2.2))
      ∧ (∀ cs : List Char,
          scan_chars (']' :: cs) true false
            = (']' :: (scan_chars cs true false).1,
               (scan_chars cs true false).2.1, (scan_chars cs true false).2.2))
      ∧ scan_until_node_end "A=\"x".data false = ("A=\"x".data, false, true)
      ∧ scan_until_node_end "y\"];".data true = ("y\"]".data, true, false)
      ∧ scan_until_node_end "X=5] ;".data false = ("X=5]".data, true, false)
      ∧ (∀ (l : List Char) (ls : List (List Char)),
          endsWithL (rstripL l) ['"', ']', ';'] = true → takeBlock (l :: ls) = ([l], ls))
      ∧ (∀ (l : List Char) (ls : List (List Char)),
          endsWithL (rstripL l) ['"', ']', ';'] = false
            → takeBlock (l :: ls) = (l :: (takeBlock ls).1, (takeBlock ls).2)) := by
  refine ⟨?_, ?_, ?_, by decide, by decide, by decide, ?_, ?_⟩
  · intro k
    induction k with
    | zero =>
      intro cs
      simp [scan_chars]
    | succ k ih =>
      intro cs
      have h3 : List.replicate (2 * (k + 1) + 1) '\\' ++ '"' :: cs
          = '\\' :: '\\' :: (List.replicate (2 * k + 1) '\\' ++ '"' :: cs) := by
        have h2 : 2 * (k + 1) + 1 = (2 * k + 1) + 1 + 1 := by omega
        rw [h2, List.replicate_succ, List.replicate_succ]
        simp
      have h4 : List.replicate (2 * (k + 1) + 1) '\\'
          = '\\' :: '\\' :: List.replicate (2 * k + 1) '\\' := by
        have h2 : 2 * (k + 1) + 1 = (2 * k + 1) + 1 + 1 := by omega
        rw [h2, List.replicate_succ, List.replicate_succ]
      rw [h3, scan_two_backslashes, ih cs, h4]
      simp
  · intro k
    induction k with
    | zero =>
      intro cs
      simp [scan_chars]
    | succ k ih =>
      intro cs
      have h3 : List.replicate (2 * (k + 1)) '\\' ++ '"' :: cs
          = '\\' :: '\\' :: (List.replicate (2 * k) '\\' ++ '"' :: cs) := by
        have h2 : 2 * (k + 1) = 2 * k + 1 + 1 := by omega
        rw [h2, List.replicate_succ, List.replicate_succ]
        simp
      have h4 : List.replicate (2 * (k + 1)) '\\'
          = '\\' :: '\\' :: List.replicate (2 * k) '\\' := by
        have h2 : 2 * (k + 1) = 2 * k + 1 + 1 := by omega
        rw [h2, List.replicate_succ, List.replicate_succ]
      rw [h3, scan_two_backslashes, ih cs, h4]
      simp
  · intro cs
    simp [scan_chars]
  · intro l ls h
    simp [takeBlock, h]
  · intro l ls h
    simp [takeBlock, h]

/-! ## C7: serializer structure -/

/-- C7 amended: the kept edges are the kept CFG edges in their original
relative order followed by the kept CALL edges in their original relative
order (cross-type input order is not preserved: every kept CFG edge is
written before every kept CALL edge), each kept sequence a sublist of the
recognized edge list; the serialized output is the header comment block with
counts, then the node declarations for the ids sorted lexicographically (a
sorted permutation of the table's keys), then the kept edge lines verbatim
behind the fixed two-space indent. -/
theorem C7_serializer_structure :
    (∀ (lines : List (List Char)) (kept_nodes udf_methods : List String),
        filter_kept_edges (udf_extract_edges lines).cfg_edges
            (udf_extract_edges lines).call_edges kept_nodes udf_methods
          = ((udf_extract_edges lines).edge_lines.filter
                (fun e => e.etype == "CFG")).filter
                (fun e => kept_nodes.contains e.source && kept_nodes.contains e.target)
              ++ ((udf_extract_edges lines).edge_lines.filter
                (fun e => e.etype == "CALL")).filter
                (fun e => kept_nodes.contains e.source && udf_methods.contains e.target))
      ∧ (∀ (lines : List (List Char)) (kept_nodes udf_methods : List String),
          List.Sublist ((udf_extract_edges lines).cfg_edges.filter
              (fun e => kept_nodes.contains e.source && kept_nodes.contains e.target))
            (udf_extract_edges lines).edge_lines
          ∧ List.Sublist ((udf_extract_edges lines).call_edges.filter
              (fun e => kept_nodes.contains e.source && udf_methods.contains e.target))
            (udf_extract_edges lines).edge_lines)
      ∧ (∀ (name : List Char) (defs : List (String × List Char)) (edges : List EdgeInfo),
          ∃ ids : List String,
            ids.Perm (defs.map Prod.fst)
              ∧ List.Sorted leS ids
              ∧ write_dot_file name defs edges
                  = "digraph udf_".data ++ name ++ " \x7b\n".data
                      ++ "  // UDF-filtered subgraph\n".data
                      ++ "  // Only user-defined functions and their bodies\n".data
                      ++ "  // Nodes: ".data ++ (toString defs.length).data
                      ++ ", Edges: ".data ++ (toString edges.length).data ++ "\n\n".data
                      ++ "  // Node definitions\n".data
                      ++ (ids.map (fun nid => render_node_def (splitNl (lookupD defs nid)))).flatten
                      ++ "\n  // Edge definitions\n".data
                      ++ (edges.map (fun e => [' ', ' '] ++ e.line ++ ['\n'])).flatten
                      ++ "\x7d\n".data) := by
  refine ⟨?_, ?_, ?_⟩
  · intro lines kept_nodes udf_methods
    rw [filter_kept_edges, udf_extract_cfg, udf_extract_call]
  · intro lines kept_nodes udf_methods
    constructor
    · rw [udf_extract_cfg]
      exact (List.filter_sublist _).trans (List.filter_sublist _)
    · rw [udf_extract_call]
      exact (List.filter_sublist _).trans (List.filter_sublist _)
  · intro name defs edges
    exact ⟨List.insertionSort leS (defs.map Prod.fst),
      List.perm_insertionSort leS (defs.map Prod.fst),
      List.sorted_insertionSort leS (defs.map Prod.fst), rfl⟩

/-- C7 counterexample: a CALL edge preceding a CFG edge in the input, both
kept, comes out after it: the producer appends all kept CFG edges before any
kept CALL edge, so the output's relative order of two kept edges of different
types does not equal their relative order in the input. -/
theorem C7_counterexample :
    (udf_extract_edges
        ["\"x\" -> \"m\" [label=\"CALL\"];".data, "\"a\" -> \"b\" [label=\"CFG\"];".data]).edge_lines
      = [⟨"x", "m", "CALL", "\"x\" -> \"m\" [label=\"CALL\"];".data⟩,
         ⟨"a", "b", "CFG", "\"a\" -> \"b\" [label=\"CFG\"];".data⟩]
    ∧ filter_kept_edges
        (udf_extract_edges
          ["\"x\" -> \"m\" [label=\"CALL\"];".data, "\"a\" -> \"b\" [label=\"CFG\"];".data]).cfg_edges
        (udf_extract_edges
          ["\"x\" -> \"m\" [label=\"CALL\"];".data, "\"a\" -> \"b\" [label=\"CFG\"];".data]).call_edges
        ["a", "b", "x"] ["m"]
      = [⟨"a", "b", "CFG", "\"a\" -> \"b\" [label=\"CFG\"];".data⟩,
         ⟨"x", "m", "CALL", "\"x\" -> \"m\" [label=\"CALL\"];".data⟩]
    ∧ (⟨"x", "m", "CALL", "\"x\" -> \"m\" [label=\"CALL\"];".data⟩ : EdgeInfo)
        ≠ ⟨"a", "b", "CFG", "\"a\" -> \"b\" [label=\"CFG\"];".data⟩ := by
  refine ⟨by decide, by decide, by decide⟩

/-! ## C8: verifier categories under a raw-text mutation -/

theorem node_integrity_loop_append (orig : List (String × NodeData)) :
    ∀ A B : List (String × NodeData),
      node_integrity_loop orig (A ++ B)
        = ((node_integrity_loop orig A).1 && (node_integrity_loop orig B).1,
           (node_integrity_loop orig A).2.1 ++ (node_integrity_loop orig B).2.1,
           (node_integrity_loop orig A).2.2 ++ (node_integrity_loop orig B).2.2) := by
  intro A
  induction A with
  | nil => intro B; simp [node_integrity_loop]
  | cons p A ih =>
    intro B
    obtain ⟨nid, d⟩ := p
    simp only [List.cons_append, node_integrity_loop, List.append_eq]
    rw [ih B]
    cases h : nodeLookup orig nid with
    | none => simp [h]
    | some od =>
      cases hs : stripL od.raw_definition != stripL d.raw_definition with
      | true =>
        have hs2 : stripL od.raw_definition ≠ stripL d.raw_definition := bne_iff_ne.mp hs
        simp [h, hs2]
      | false =>
        have hs2 : stripL od.raw_definition = stripL d.raw_definition := by
          simpa using hs
        simp [h, hs2]

theorem method_ids_raw (F1 F2 : List (String × NodeData)) (nid : String)
    (a : List (String × String)) (r1 r2 : List Char) :
    method_ids (F1 ++ (nid, ⟨a, r1⟩) :: F2) = method_ids (F1 ++ (nid, ⟨a, r2⟩) :: F2) := by
  simp only [method_ids, List.filter_append, List.filter_cons, List.map_append]
  cases h : attrGetD a "label" "" == "METHOD" <;> simp [h]

theorem udf_ids_raw (F1 F2 : List (String × NodeData)) (nid : String)
    (a : List (String × String)) (r1 r2 : List Char) :
    udf_ids (F1 ++ (nid, ⟨a, r1⟩) :: F2) = udf_ids (F1 ++ (nid, ⟨a, r2⟩) :: F2) := by
  simp only [udf_ids, List.filter_append, List.filter_cons, List.map_append]
  cases h : (attrGetD a "label" "" == "METHOD"
      && verifier_is_user_defined_method a) <;> simp [h]

theorem map_fst_raw (F1 F2 : List (String × NodeData)) (nid : String)
    (a : List (String × String)) (r1 r2 : List Char) :
    (F1 ++ (nid, ⟨a, r1⟩) :: F2).map Prod.fst
      = (F1 ++ (nid, ⟨a, r2⟩) :: F2).map Prod.fst := by
  simp

theorem verify_udf_identification_raw (orig F1 F2 : List (String × NodeData)) (nid : String)
    (a : List (String × String)) (r1 r2 : List Char) :
    verify_udf_identification orig (F1 ++ (nid, ⟨a, r2⟩) :: F2)
      = verify_udf_identification orig (F1 ++ (nid, ⟨a, r1⟩) :: F2) := by
  unfold verify_udf_identification
  rw [method_ids_raw F1 F2 nid a r2 r1, udf_ids_raw F1 F2 nid a r2 r1]

theorem verify_cfg_reachability_raw (original_edges : List EdgeInfo)
    (orig F1 F2 : List (String × NodeData)) (nid : String)
    (a : List (String × String)) (r1 r2 : List Char) :
    verify_cfg_reachability original_edges orig (F1 ++ (nid, ⟨a, r2⟩) :: F2)
      = verify_cfg_reachability original_edges orig (F1 ++ (nid, ⟨a, r1⟩) :: F2) := by
  unfold verify_cfg_reachability
  rw [map_fst_raw F1 F2 nid a r2 r1]

theorem verify_edge_filtering_raw (filtered_edges : List EdgeInfo)
    (orig F1 F2 : List (String × NodeData)) (nid : String)
    (a : List (String × String)) (r1 r2 : List Char) :
    verify_edge_filtering orig (F1 ++ (nid, ⟨a, r2⟩) :: F2) filtered_edges
      = verify_edge_filtering orig (F1 ++ (nid, ⟨a, r1⟩) :: F2) filtered_edges := by
  unfold verify_edge_filtering
  rw [map_fst_raw F1 F2 nid a r2 r1]

/-- C8 amended: when a verified-clean filtered table has one kept node's raw
declaration text replaced so that the whitespace-stripped text differs from
the original node's, verify_node_integrity reports passed=false with exactly
one issue carrying the corrupted-definition count (the node id is printed but
not put into the issue), while udf_identification, cfg_reachability and
edge_filtering — which read only parsed attributes, node ids and edges — are
unchanged by the mutation. -/
theorem C8_mutation_detection (orig F1 F2 : List (String × NodeData)) (nid : String)
    (a : List (String × String)) (r1 r2 : List Char) (d0 : NodeData)
    (hpass : verify_node_integrity orig (F1 ++ (nid, ⟨a, r1⟩) :: F2) = (true, []))
    (hlook : nodeLookup orig nid = some d0)
    (hdiff : stripL d0.raw_definition ≠ stripL r2) :
    verify_node_integrity orig (F1 ++ (nid, ⟨a, r2⟩) :: F2)
        = (false, ["Corrupted node definitions: 1"])
      ∧ verify_udf_identification orig (F1 ++ (nid, ⟨a, r2⟩) :: F2)
          = verify_udf_identification orig (F1 ++ (nid, ⟨a, r1⟩) :: F2)
      ∧ (∀ original_edges : List EdgeInfo,
          verify_cfg_reachability original_edges orig (F1 ++ (nid, ⟨a, r2⟩) :: F2)
            = verify_cfg_reachability original_edges orig (F1 ++ (nid, ⟨a, r1⟩) :: F2))
      ∧ (∀ filtered_edges : List EdgeInfo,
          verify_edge_filtering orig (F1 ++ (nid, ⟨a, r2⟩) :: F2) filtered_edges
            = verify_edge_filtering orig (F1 ++ (nid, ⟨a, r1⟩) :: F2) filtered_edges) := by
  have hA1 := node_integrity_loop_append orig F1 ((nid, ⟨a, r1⟩) :: F2)
  have hA2 := node_integrity_loop_append orig F1 ((nid, ⟨a, r2⟩) :: F2)
  have hd2 : (stripL d0.raw_definition != stripL r2) = true := bne_iff_ne.mpr hdiff
  have hmid2 : node_integrity_loop orig ((nid, ⟨a, r2⟩) :: F2)
      = (false, (node_integrity_loop orig F2).2.1,
         nid :: (node_integrity_loop orig F2).2.2) := by
    rw [node_integrity_loop, hlook]
    simp [hd2]
  refine ⟨?_, verify_udf_identification_raw orig F1 F2 nid a r1 r2,
    fun oe => verify_cfg_reachability_raw oe orig F1 F2 nid a r1 r2,
    fun fe => verify_edge_filtering_raw fe orig F1 F2 nid a r1 r2⟩
  cases hs : stripL d0.raw_definition != stripL r1 with
  | true =>
    exfalso
    have hmid1 : (node_integrity_loop orig ((nid, ⟨a, r1⟩) :: F2)).1 = false := by
      rw [node_integrity_loop, hlook]
      simp [hs]
    rw [verify_node_integrity, hA1, hmid1] at hpass
    have := congrArg Prod.fst hpass
    simp at this
  | false =>
    have hmid1 : node_integrity_loop orig ((nid, ⟨a, r1⟩) :: F2)
        = ((node_integrity_loop orig F2).1, (node_integrity_loop orig F2).2.1,
           (node_integrity_loop orig F2).2.2) := by
      rw [node_integrity_loop, hlook]
      simp [hs]
    rw [verify_node_integrity, hA1, hmid1] at hpass
    rw [Prod.mk.injEq] at hpass
    obtain ⟨hp1, hp2⟩ := hpass
    simp only [] at hp2
    rcases List.append_eq_nil.mp hp2 with ⟨hp21, hp22⟩
    rcases List.append_eq_nil.mp hp21 with ⟨hA21, hB21⟩
    have hcorr : (node_integrity_loop orig F1).2.2 = []
        ∧ (node_integrity_loop orig F2).2.2 = [] := by
      cases hce : ((node_integrity_loop orig F1).2.2
          ++ (node_integrity_loop orig F2).2.2).isEmpty with
      | true =>
        exact List.append_eq_nil.mp (List.isEmpty_iff.mp hce)
      | false =>
        rw [hce] at hp22
        simp at hp22
    rw [verify_node_integrity, hA2, hmid2]
    rw [hA21, hB21, hcorr.1, hcorr.2]
    simp
    decide

/-- C8 counterexample: a one-character mutation confined to trailing
whitespace of a kept node's raw declaration (the trailing space replaced by a
tab) is invisible to the integrity check, which strips both texts before
comparing: node_integrity still reports passed=true with no issue, refuting
the claim that every one-character mutation of a kept node's raw text yields
passed=false with one issue naming that node. -/
theorem C8_counterexample :
    "\"a\" [X=\"1\"]; ".data ≠ "\"a\" [X=\"1\"];\t".data
      ∧ "\"a\" [X=\"1\"]; ".data.length = "\"a\" [X=\"1\"];\t".data.length
      ∧ (List.zip "\"a\" [X=\"1\"]; ".data "\"a\" [X=\"1\"];\t".data).countP
            (fun p => p.1 != p.2) = 1
      ∧ verify_node_integrity
            [("a", ⟨[("label", "METHOD")], "\"a\" [X=\"1\"]; ".data⟩)]
            [("a", ⟨[("label", "METHOD")], "\"a\" [X=\"1\"];\t".data⟩)]
          = (true, []) := by
  refine ⟨by decide, by decide, by decide, by decide⟩

/-- C8 witness: the mutation theorem applied to a concrete one-node table
whose raw text is replaced by a text whose stripped form differs. -/
theorem C8_mutation_detection_witness :
    verify_node_integrity [("a", ⟨[], "x".data⟩)] [("a", ⟨[], "y".data⟩)]
        = (false, ["Corrupted node definitions: 1"])
      ∧ verify_udf_identification [("a", ⟨[], "x".data⟩)] [("a", ⟨[], "y".data⟩)]
          = verify_udf_identification [("a", ⟨[], "x".data⟩)] [("a", ⟨[], "x".data⟩)]
      ∧ (∀ original_edges : List EdgeInfo,
          verify_cfg_reachability original_edges [("a", ⟨[], "x".data⟩)]
              [("a", ⟨[], "y".data⟩)]
            = verify_cfg_reachability original_edges [("a", ⟨[], "x".data⟩)]
              [("a", ⟨[], "x".data⟩)])
      ∧ (∀ filtered_edges : List EdgeInfo,
          verify_edge_filtering [("a", ⟨[], "x".data⟩)] [("a", ⟨[], "y".data⟩)]
              filtered_edges
            = verify_edge_filtering [("a", ⟨[], "x".data⟩)] [("a", ⟨[], "x".data⟩)]
              filtered_edges) :=
  C8_mutation_detection [("a", ⟨[], "x".data⟩)] [] [] "a" [] "x".data "y".data
    ⟨[], "x".data⟩ (by decide) (by decide) (by decide)

/-- C5 witness: the block-termination rule of the extractor scanner at a
concrete line whose right-stripped text ends in quote-bracket-semicolon. -/
theorem C5_scanner_behaviour_witness :
    takeBlock ["A=\"1\"];".data] = (["A=\"1\"];".data], []) :=
  C5_scanner_behaviour.2.2.2.2.2.2.1 "A=\"1\"];".data [] (by decide)

/-- C6 witness: the emission facts at a concrete one-declaration input. -/
theorem C6_node_emission_order_witness :
    List.IsInfix [("\"a\" [label=\"A\"];".data)] [("\"a\" [label=\"A\"];".data)]
      ∧ [("\"a\" [label=\"A\"];".data)] ≠ ([] : List (List Char)) :=
  (C6_node_emission_order ["a"] [("\"a\" [label=\"A\"];".data)]).2
    [("\"a\" [label=\"A\"];".data)] (by decide)

/-- C10 witness: a line without a parsable label attribute is dropped by all
four passes at a concrete input. -/
theorem C10_unparsable_edges_ignored_witness :
    extractor_edges ["\"a\" -> \"b\" [foo];".data, "\"a\" -> \"b\" [label=\"CFG\"];".data]
          ["CFG"]
        = extractor_edges ["\"a\" -> \"b\" [label=\"CFG\"];".data] ["CFG"]
      ∧ udf_extract_edges
            ["\"a\" -> \"b\" [foo];".data, "\"a\" -> \"b\" [label=\"CFG\"];".data]
          = udf_extract_edges ["\"a\" -> \"b\" [label=\"CFG\"];".data]
      ∧ subgraph_verifier_parse_edges
            ["\"a\" -> \"b\" [foo];".data, "\"a\" -> \"b\" [label=\"CFG\"];".data]
          = subgraph_verifier_parse_edges ["\"a\" -> \"b\" [label=\"CFG\"];".data]
      ∧ udf_verifier_parse_edges
            ["\"a\" -> \"b\" [foo];".data, "\"a\" -> \"b\" [label=\"CFG\"];".data]
          = udf_verifier_parse_edges ["\"a\" -> \"b\" [label=\"CFG\"];".data] :=
  C10_unparsable_edges_ignored.2 ["CFG"] "\"a\" -> \"b\" [foo];".data []
    ["\"a\" -> \"b\" [label=\"CFG\"];".data] (by decide)
